import Mathlib

/-!
Shallow embedding of `src/client/src/lib/timetable-generator.ts`.

The TypeScript module exports two functions:

* `generateTimetable(options)` — the slot allocator (lines 31-281);
* `checkConflicts(scheduledClasses)` — the conflict auditor (lines 286-360).

Modelling decisions, each tied to the source:

* JavaScript numbers are modelled as `ℚ` for quantities compared with `>=`
  (credits, capacities) and as `Int` for identifiers.  Object keys obtained
  from `parseInt` can be `NaN`; the key space of the `courseConflicts` record
  is therefore `Option Int`, with `none` playing the role of the `"NaN"` key.
* The records used as maps (`instructorAssignments`, `courseConflicts`, ...)
  are modelled as total functions returning `[]` for absent keys; the source
  only ever reads them through `?.some`/`?.length`/`for ... of` after an
  "initialize to `[]` if missing" guard, so absent and empty are
  indistinguishable there.
* `Math.random()` is a hidden global in the source.  Every call site feeds a
  `() => Math.random() - 0.5` comparator to `Array.prototype.sort`; such an
  inconsistent comparator makes the resulting order implementation-defined
  (ECMAScript 23.1.3.30).  The embedding makes the randomness explicit: a
  stream of booleans (`List Bool`, one entry per comparator call, exhausted
  stream yielding `false`) drives an insertion sort, which is one conforming
  implementation of the implementation-defined shuffle.
* `console.warn` side effects are modelled as an append-only `warnings`
  field of the generator state, so that the "diagnostics via logging"
  behaviour of the source is visible in the model.
* `String.prototype.split('-')` and `String.prototype.trim()` are modelled
  by structurally recursive functions over the character list of the string
  (the core library's `String.splitOn`/`String.trim` are extensionally the
  same on the inputs involved but do not reduce in the kernel).
-/

/-- Day plus time-slot label: the `ClassSlot` interface of the source. -/
structure ClassSlot where
  day : String
  timeSlot : String
deriving DecidableEq, Repr

/-- The `Course` entity (identifier, code, credits, capacity, instructor,
department), an immutable input of the generator. -/
structure Course where
  id : Int
  code : String
  credits : ℚ
  capacity : ℚ
  instructorId : Int
  departmentId : Int
deriving DecidableEq, Repr

/-- The `Instructor` entity; only its identifier is relevant to the core. -/
structure Instructor where
  id : Int
deriving DecidableEq, Repr

/-- The `Classroom` entity: identifier plus capacity. -/
structure Classroom where
  id : Int
  capacity : ℚ
deriving DecidableEq, Repr

/-- The three constraint record types of the source. -/
inductive ConstraintType where
  | instructor_unavailable
  | room_unavailable
  | course_conflict
deriving DecidableEq, Repr

/-- A raw constraint record: `{type, entityId, day, timeSlot}`.  For
`course_conflict` records the `timeSlot` field carries a stringified second
course identifier. -/
structure Constraint where
  type : ConstraintType
  entityId : Int
  day : String
  timeSlot : String
deriving DecidableEq, Repr

/-- An output row of the generator (`ScheduledClass`). -/
structure ScheduledClass where
  id : Int
  courseId : Int
  instructorId : Int
  classroomId : Int
  day : String
  startTime : String
  endTime : String
  timetableId : Int
deriving DecidableEq, Repr

/-- The options record passed to `generateTimetable`. -/
structure GeneratorOptions where
  courses : List Course
  instructors : List Instructor
  classrooms : List Classroom
  constraints : List Constraint
  timetableId : Int
deriving Repr

/-! ### Character-level string helpers (JS `split('-')`, `trim()`, `parseInt`) -/

/-- Split a character list at every occurrence of `sep`, JS
`String.prototype.split` style (`"a-b"` gives `["a","b"]`, `""` gives
`[""]`). -/
def splitChars (sep : Char) : List Char → List (List Char)
  | [] => [[]]
  | c :: cs =>
    let rest := splitChars sep cs
    if c = sep then [] :: rest
    else
      match rest with
      | [] => [[c]]
      | r :: rs => (c :: r) :: rs

/-- JS `s.split('-')`, as a list of strings. -/
def jsSplitDash (s : String) : List String :=
  (splitChars '-' s.data).map (fun cs => ⟨cs⟩)

/-- Drop leading whitespace characters. -/
def dropLeadingWs : List Char → List Char
  | [] => []
  | c :: cs => if c.isWhitespace then dropLeadingWs cs else c :: cs

/-- JS `s.trim()`: strip whitespace from both ends. -/
def jsTrim (s : String) : String :=
  ⟨(dropLeadingWs (dropLeadingWs s.data.reverse).reverse)⟩

/-- Accumulate a decimal digit run, JS `parseInt` style (stops at the first
non-digit character). -/
def digitRun : List Char → Nat → Nat
  | [], acc => acc
  | c :: cs, acc => if c.isDigit then digitRun cs (acc * 10 + (c.toNat - 48)) else acc

/-- Parse a leading run of decimal digits; `none` when the first character is
not a digit (JS `parseInt` then yields `NaN`). -/
def leadingDigits : List Char → Option Nat
  | [] => none
  | c :: cs => if c.isDigit then some (digitRun (c :: cs) 0) else none

/-- JS `parseInt(s)` with the radix argument omitted, as at line 72 of the
source: skip surrounding whitespace, optional sign, leading decimal digit
run; `none` models the `NaN` result.  (The `0x` hexadecimal prefix of full
`parseInt` is not modelled; no stringified course identifier carries it.) -/
def jsParseInt (s : String) : Option Int :=
  match dropLeadingWs s.data with
  | '-' :: rest => (leadingDigits rest).map (fun n => -(n : Int))
  | '+' :: rest => (leadingDigits rest).map (fun n => (n : Int))
  | cs => (leadingDigits cs).map (fun n => (n : Int))

/-- First component of the `-`-split of a time-slot label, trimmed
(`slot.timeSlot.split('-')[0].trim()` in the source). -/
def slotStartStr (lbl : String) : String :=
  jsTrim ((jsSplitDash lbl).getD 0 "")

/-- Second component of the `-`-split of a time-slot label, trimmed
(`slot.timeSlot.split('-')[1].trim()` in the source). -/
def slotEndStr (lbl : String) : String :=
  jsTrim ((jsSplitDash lbl).getD 1 "")

/-! ### The explicit randomness stream and the comparator-driven shuffle -/

/-- Draw one comparator outcome from the stream (`false` when exhausted). -/
def takeCoin : List Bool → Bool × List Bool
  | [] => (false, [])
  | b :: bs => (b, bs)

/-- Insert `x` into the working list, consuming one comparator outcome per
comparison, as an engine sorting with the inconsistent comparator
`() => Math.random() - 0.5` would. -/
def coinInsert : List Bool → α → List α → List α × List Bool
  | coins, x, [] => ([x], coins)
  | coins, x, y :: ys =>
    let p := takeCoin coins
    if p.1 then
      let q := coinInsert p.2 x ys
      (y :: q.1, q.2)
    else (x :: y :: ys, p.2)

/-- Tail of the shuffle: insert the remaining elements one by one. -/
def shuffleGo : List Bool → List α → List α → List α × List Bool
  | coins, acc, [] => (acc, coins)
  | coins, acc, x :: xs =>
    let p := coinInsert coins x acc
    shuffleGo p.2 p.1 xs

/-- Model of `[...xs].sort(() => Math.random() - 0.5)`: a permutation of `xs`
determined by the explicit stream of comparator outcomes. -/
def shuffleJS (coins : List Bool) (xs : List α) : List α × List Bool :=
  shuffleGo coins [] xs

/-- Stable insertion with a boolean "stays before" relation: `y` keeps its
place in front of `x` whenever `le y x`. -/
def insLE (le : α → α → Bool) (x : α) : List α → List α
  | [] => [x]
  | y :: ys => if le y x then y :: insLE le x ys else x :: y :: ys

/-- Tail of the stable sort. -/
def sortGo (le : α → α → Bool) : List α → List α → List α
  | acc, [] => acc
  | acc, x :: xs => sortGo le (insLE le x acc) xs

/-- Model of `Array.prototype.sort` with a consistent numeric comparator
(stable, as required by ECMAScript). -/
def sortJS (le : α → α → Bool) (xs : List α) : List α :=
  sortGo le [] xs

/-! ### The constraint index (lines 48-84 of the source) -/

/-- Per-entity slot lists, keyed by numeric identifier. -/
abbrev AMap := Int → List ClassSlot

/-- The `courseConflicts` record; keys are numbers or the `NaN` produced by
`parseInt` on a malformed secondary identifier, hence `Option Int`. -/
abbrev CMap := Option Int → List (Option Int)

/-- `m[k].push(s)` on a slot-list record (initializing the entry to `[]`
first, as the source does). -/
def pushA (m : AMap) (k : Int) (s : ClassSlot) : AMap :=
  fun i => if i = k then m i ++ [s] else m i

/-- `m[k].push(v)` on the conflict record. -/
def pushC (m : CMap) (k : Option Int) (v : Option Int) : CMap :=
  fun i => if i = k then m i ++ [v] else m i

/-- One iteration of the `for (const constraint of constraints)` loop: extend
the triple (instructorUnavailable, roomUnavailable, courseConflicts). -/
def indexStep (acc : AMap × AMap × CMap) (c : Constraint) : AMap × AMap × CMap :=
  match c.type with
  | .instructor_unavailable => (pushA acc.1 c.entityId ⟨c.day, c.timeSlot⟩, acc.2.1, acc.2.2)
  | .room_unavailable => (acc.1, pushA acc.2.1 c.entityId ⟨c.day, c.timeSlot⟩, acc.2.2)
  | .course_conflict =>
    let courseId : Option Int := some c.entityId
    let conflictingCourseId : Option Int := jsParseInt c.timeSlot
    (acc.1, acc.2.1, pushC (pushC acc.2.2 courseId conflictingCourseId) conflictingCourseId courseId)

/-- The full constraint-processing loop. -/
def buildIndex (cs : List Constraint) : AMap × AMap × CMap :=
  cs.foldl indexStep (fun _ => [], fun _ => [], fun _ => [])

/-- The conflict adjacency produced from a constraint list. -/
def buildConflicts (cs : List Constraint) : CMap :=
  (buildIndex cs).2.2

/-! ### Generator environment and state -/

/-- The data `generateTimetable` reads but never writes: the configured grid,
the timetable identifier and the constraint index. -/
structure Env where
  weekDays : List String
  timeSlots : List String
  timetableId : Int
  instructorUnavailable : AMap
  roomUnavailable : AMap
  courseConflicts : CMap
  allSlots : List ClassSlot

/-- The mutable state of one generator run: the output rows, the three
occupancy records and the `console.warn` log. -/
structure GenState where
  scheduledClasses : List ScheduledClass
  instructorAssignments : AMap
  classroomAssignments : AMap
  courseAssignments : AMap
  warnings : List String

/-- Fresh state at the start of a run. -/
def initState : GenState :=
  ⟨[], fun _ => [], fun _ => [], fun _ => [], []⟩

/-- Build the environment: the constraint index plus the `allSlots` product
computed at the top of `generateTimetable` (lines 34-40). -/
def buildEnv (weekDays timeSlots : List String) (cs : List Constraint) (tid : Int) : Env :=
  let idx := buildIndex cs
  { weekDays := weekDays
    timeSlots := timeSlots
    timetableId := tid
    instructorUnavailable := idx.1
    roomUnavailable := idx.2.1
    courseConflicts := idx.2.2
    allSlots := weekDays.flatMap (fun d => timeSlots.map (fun t => ⟨d, t⟩)) }

/-- `s.day === day && s.timeSlot === timeSlot` from the availability checks. -/
def slotMatches (slot : ClassSlot) (s : ClassSlot) : Bool :=
  s.day == slot.day && s.timeSlot == slot.timeSlot

/-- Lookup of the `courseAssignments` record at a conflict key (which may be
the `NaN` key, absent from the record). -/
def jkGet (m : AMap) : Option Int → List ClassSlot
  | none => []
  | some i => m i

/-- The availability oracle `isSlotAvailable` (lines 96-131): instructor
unavailability, instructor occupancy, room unavailability, room occupancy and
conflicting-course occupancy, each failing the slot. -/
def isSlotAvailable (env : Env) (st : GenState) (course : Course) (slot : ClassSlot)
    (roomId : Int) : Bool :=
  !((env.instructorUnavailable course.instructorId).any (slotMatches slot)) &&
  !((st.instructorAssignments course.instructorId).any (slotMatches slot)) &&
  !((env.roomUnavailable roomId).any (slotMatches slot)) &&
  !((st.classroomAssignments roomId).any (slotMatches slot)) &&
  !((env.courseConflicts (some course.id)).any
      (fun cid => (jkGet st.courseAssignments cid).any (slotMatches slot)))

/-- `slotsNeeded` (line 146): 3 slots for credits ≥ 4, 2 for credits ≥ 3,
otherwise 1. -/
def slotsNeeded (course : Course) : Nat :=
  if course.credits ≥ 4 then 3 else if course.credits ≥ 3 then 2 else 1

/-- The number of candidate block start positions,
`timeSlots.length - slotsNeeded + 1` clamped at 0 as `Array.from` does for a
negative length. -/
def startCount (env : Env) (k : Nat) : Nat :=
  if k ≤ env.timeSlots.length then env.timeSlots.length - k + 1 else 0

/-- The grid cell at block offset `j`:
`{day, timeSlot: timeSlots[startIdx + j]}`. -/
def cellAt (env : Env) (day : String) (startIdx j : Nat) : ClassSlot :=
  ⟨day, env.timeSlots.getD (startIdx + j) ""⟩

/-- The `ScheduledClass` row emitted for block offset `j` (lines 200-215):
start of slot `startIdx+j`, end of the slot for the last row and start of the
next slot otherwise. -/
def mkBlockRow (env : Env) (course : Course) (roomId : Int) (day : String)
    (startIdx k j : Nat) : ScheduledClass :=
  { id := 0
    courseId := course.id
    instructorId := course.instructorId
    classroomId := roomId
    day := day
    startTime := slotStartStr (env.timeSlots.getD (startIdx + j) "")
    endTime :=
      if j = k - 1 then slotEndStr (env.timeSlots.getD (startIdx + j) "")
      else slotStartStr (env.timeSlots.getD (startIdx + j + 1) "")
    timetableId := env.timetableId }

/-- Loop body of the block commit (lines 181-216): push the cell onto the
three occupancy records and emit the row for offset `j`. -/
def commitStep (env : Env) (course : Course) (roomId : Int) (day : String)
    (startIdx k : Nat) (st : GenState) (j : Nat) : GenState :=
  let slot := cellAt env day startIdx j
  { st with
    instructorAssignments := pushA st.instructorAssignments course.instructorId slot
    classroomAssignments := pushA st.classroomAssignments roomId slot
    courseAssignments := pushA st.courseAssignments course.id slot
    scheduledClasses := st.scheduledClasses ++ [mkBlockRow env course roomId day startIdx k j] }

/-- Commit a whole contiguous block: the `for (let j = 0; j < slotsNeeded;
j++)` loop. -/
def commitBlock (env : Env) (course : Course) (roomId : Int) (day : String)
    (startIdx k : Nat) (st : GenState) : GenState :=
  (List.range k).foldl (commitStep env course roomId day startIdx k) st

/-- The rows a block commit appends, in emission order. -/
def blockRows (env : Env) (course : Course) (roomId : Int) (day : String)
    (startIdx k : Nat) : List ScheduledClass :=
  (List.range k).map (mkBlockRow env course roomId day startIdx k)

/-- The `allAvailable` scan (lines 170-177): every one of the `k` consecutive
slots passes the oracle. -/
def checkBlock (env : Env) (course : Course) (roomId : Int) (day : String)
    (startIdx k : Nat) (st : GenState) : Bool :=
  (List.range k).all (fun j => isSlotAvailable env st course (cellAt env day startIdx j) roomId)

/-- The `for (const startIdx of slotIndices)` loop: first start position whose
block is fully available wins and is committed. -/
def tryStarts (env : Env) (course : Course) (roomId : Int) (day : String) (k : Nat) :
    List Nat → GenState → Option GenState
  | [], _ => none
  | s :: rest, st =>
    if checkBlock env course roomId day s k st then
      some (commitBlock env course roomId day s k st)
    else tryStarts env course roomId day k rest st

/-- The `for (const day of shuffledDays)` loop: each visited day shuffles its
own start positions (consuming comparator outcomes) before the scan. -/
def tryDays (env : Env) (course : Course) (roomId : Int) (k : Nat) :
    List String → GenState → List Bool → Option GenState × List Bool
  | [], _, coins => (none, coins)
  | day :: rest, st, coins =>
    let p := shuffleJS coins (List.range (startCount env k))
    match tryStarts env course roomId day k p.1 st with
    | some st1 => (some st1, p.2)
    | none => tryDays env course roomId k rest st p.2

/-- The `for (const room of suitableRooms)` loop of the contiguous phase. -/
def tryRooms (env : Env) (course : Course) (k : Nat) (days : List String) :
    List Classroom → GenState → List Bool → Option GenState × List Bool
  | [], _, coins => (none, coins)
  | room :: rest, st, coins =>
    match tryDays env course room.id k days st coins with
    | (some st1, coins1) => (some st1, coins1)
    | (none, coins1) => tryRooms env course k days rest st coins1

/-- The single-slot row of the scattered fallback (lines 256-267). -/
def mkSingleRow (env : Env) (course : Course) (roomId : Int) (slot : ClassSlot) :
    ScheduledClass :=
  { id := 0
    courseId := course.id
    instructorId := course.instructorId
    classroomId := roomId
    day := slot.day
    startTime := slotStartStr slot.timeSlot
    endTime := slotEndStr slot.timeSlot
    timetableId := env.timetableId }

/-- Commit one scattered slot (lines 238-269). -/
def commitSingle (env : Env) (course : Course) (roomId : Int) (slot : ClassSlot)
    (st : GenState) : GenState :=
  { st with
    instructorAssignments := pushA st.instructorAssignments course.instructorId slot
    classroomAssignments := pushA st.classroomAssignments roomId slot
    courseAssignments := pushA st.courseAssignments course.id slot
    scheduledClasses := st.scheduledClasses ++ [mkSingleRow env course roomId slot] }

/-- The `for (const slot of shuffledSlots)` loop of the fallback, carrying the
`assignedSlots` counter and stopping once `slotsNeeded` slots are placed. -/
def scatterSlots (env : Env) (course : Course) (roomId : Int) (k : Nat) :
    List ClassSlot → GenState → Nat → GenState × Nat
  | [], st, n => (st, n)
  | slot :: rest, st, n =>
    if k ≤ n then (st, n)
    else if isSlotAvailable env st course slot roomId then
      scatterSlots env course roomId k rest (commitSingle env course roomId slot st) (n + 1)
    else scatterSlots env course roomId k rest st n

/-- The `for (const room of suitableRooms)` loop of the fallback. -/
def scatterRooms (env : Env) (course : Course) (k : Nat) (slots : List ClassSlot) :
    List Classroom → GenState → Nat → GenState × Nat
  | [], st, n => (st, n)
  | room :: rest, st, n =>
    if k ≤ n then (st, n)
    else
      let p := scatterSlots env course room.id k slots st n
      scatterRooms env course k slots rest p.1 p.2

/-- Candidate-room comparator: ascending capacity (`a.capacity - b.capacity`,
line 138). -/
def roomBefore (a b : Classroom) : Bool :=
  decide (a.capacity ≤ b.capacity)

/-- Constrainedness score of a course (lines 88-91). -/
def scoreOf (env : Env) (c : Course) : Nat :=
  (env.courseConflicts (some c.id)).length + (env.instructorUnavailable c.instructorId).length

/-- Course comparator: descending constrainedness (`bConstraints -
aConstraints`, line 92). -/
def courseBefore (env : Env) (a b : Course) : Bool :=
  decide (scoreOf env b ≤ scoreOf env a)

/-- The suitable-rooms computation of lines 136-138: filter by capacity, then
sort ascending by capacity on the fresh filtered array. -/
def suitableRoomsOf (classrooms : List Classroom) (course : Course) : List Classroom :=
  sortJS roomBefore (classrooms.filter (fun room => decide (course.capacity ≤ room.capacity)))

/-- The body of the `for (const course of sortedCourses)` loop (lines
134-278), given the already computed candidate-room list. -/
def processCourseWith (env : Env) (suitableRooms : List Classroom)
    (p : GenState × List Bool) (course : Course) : GenState × List Bool :=
  let st := p.1
  let coins := p.2
  if suitableRooms.isEmpty then
    ({ st with warnings := st.warnings ++ ["No suitable rooms for course " ++ course.code] },
      coins)
  else
    let k := slotsNeeded course
    let q := shuffleJS coins env.weekDays
    match tryRooms env course k q.1 suitableRooms st q.2 with
    | (some st1, coins1) => (st1, coins1)
    | (none, coins1) =>
      let r := shuffleJS coins1 env.allSlots
      let w := scatterRooms env course k r.1 suitableRooms st 0
      if w.2 < k then
        ({ w.1 with
            warnings := w.1.warnings ++
              ["Could only assign " ++ toString w.2 ++ "/" ++ toString k ++
                " slots for course " ++ course.code] }, r.2)
      else (w.1, r.2)

/-- One course of the main loop, computing its candidate rooms from the
caller's classroom list. -/
def processCourse (env : Env) (classrooms : List Classroom)
    (p : GenState × List Bool) (course : Course) : GenState × List Bool :=
  processCourseWith env (suitableRoomsOf classrooms course) p course

/-- The whole generator run, returning the final state and the unconsumed
randomness: index construction, most-constrained-first ordering, then the
course loop. -/
def generateTimetableFull (weekDays timeSlots : List String) (opts : GeneratorOptions)
    (coins : List Bool) : GenState × List Bool :=
  let env := buildEnv weekDays timeSlots opts.constraints opts.timetableId
  let sortedCourses := sortJS (courseBefore env) opts.courses
  sortedCourses.foldl (processCourse env opts.classrooms) (initState, coins)

/-- `generateTimetable`: the source returns only the `scheduledClasses`
array. -/
def generateTimetable (weekDays timeSlots : List String) (opts : GeneratorOptions)
    (coins : List Bool) : List ScheduledClass :=
  (generateTimetableFull weekDays timeSlots opts coins).1.scheduledClasses

/-! ### The conflict auditor `checkConflicts` (lines 286-360) -/

/-- An entry of `instructorConflicts`. -/
structure InstructorConflict where
  instructorId : Int
  classes : List ScheduledClass
deriving DecidableEq, Repr

/-- An entry of `classroomConflicts`. -/
structure ClassroomConflict where
  classroomId : Int
  classes : List ScheduledClass
deriving DecidableEq, Repr

/-- The triple returned by `checkConflicts`. -/
structure ConflictReport where
  instructorConflicts : List InstructorConflict
  classroomConflicts : List ClassroomConflict
  studentConflicts : List ScheduledClass
deriving DecidableEq, Repr

/-- The grouping key `` `${day}-${startTime}-${endTime}` ``. -/
def conflictKey (r : ScheduledClass) : String :=
  r.day ++ "-" ++ r.startTime ++ "-" ++ r.endTime

/-- Two-level grouping record: entity id, then key string. -/
abbrev GroupMap := Int → String → List ScheduledClass

/-- `m[i][key].push(r)` on the grouping record. -/
def pushG (m : GroupMap) (i : Int) (key : String) (r : ScheduledClass) : GroupMap :=
  fun i2 k2 => if i2 = i then (if k2 = key then m i2 k2 ++ [r] else m i2 k2) else m i2 k2

/-- One iteration of the instructor scan (lines 298-318): push the row into
its group, then report the group whenever it now holds more than one row. -/
def instrStep (acc : GroupMap × List InstructorConflict) (r : ScheduledClass) :
    GroupMap × List InstructorConflict :=
  let key := conflictKey r
  let g := acc.1 r.instructorId key ++ [r]
  (pushG acc.1 r.instructorId key r,
    if 1 < g.length then acc.2 ++ [⟨r.instructorId, g⟩] else acc.2)

/-- One iteration of the classroom scan (lines 323-343). -/
def classStep (acc : GroupMap × List ClassroomConflict) (r : ScheduledClass) :
    GroupMap × List ClassroomConflict :=
  let key := conflictKey r
  let g := acc.1 r.classroomId key ++ [r]
  (pushG acc.1 r.classroomId key r,
    if 1 < g.length then acc.2 ++ [⟨r.classroomId, g⟩] else acc.2)

/-- `checkConflicts`: both scans plus the always-empty student list (the
third loop of the source has an empty body).  In the source a pushed conflict
entry holds a reference to the live group array, so a group reaching three or
more rows mutates earlier entries retroactively; the model snapshots the
group at push time.  Both agree on the number of entries pushed and on all
inputs whose groups stay of size at most two, which covers the audited
properties. -/
def checkConflicts (rows : List ScheduledClass) : ConflictReport :=
  { instructorConflicts := (rows.foldl instrStep (fun _ _ => [], [])).2
    classroomConflicts := (rows.foldl classStep (fun _ _ => [], [])).2
    studentConflicts := [] }

/-- Invariant of the generator state: each instructor's and each classroom's
occupancy list holds every (day, timeSlot) cell at most once. -/
def InvS (st : GenState) : Prop :=
  ∀ i : Int, (st.instructorAssignments i).Nodup ∧ (st.classroomAssignments i).Nodup

/-- Symmetry of a conflict adjacency: every recorded edge is present in both
directions. -/
def SymM (m : CMap) : Prop :=
  ∀ a b : Option Int, b ∈ m a ↔ a ∈ m b

/-- Default row used with `List.getD` when indexing output lists. -/
def defRow : ScheduledClass :=
  ⟨0, 0, 0, 0, "", "", "", 0⟩

/-! ### Heap-instrumented variant (for the read-only-inputs claim)

The source mutates arrays in exactly two places: `[...courses].sort(...)`
(line 87) sorts an array freshly copied from the caller's `courses`, and
`classrooms.filter(...).sort(...)` (lines 136-138) sorts the fresh array
returned by `filter`.  To reason about those in-place sorts we instrument the
generator with explicit stores of course-arrays and classroom-arrays:
references are indices, `++ [xs]` allocates, `List.set` is an in-place write.
The caller's arrays live at given references and the theorem shows they are
untouched while the computed schedule agrees with the pure model. -/

/-- One course of the main loop, against the store: read the caller's
classroom array, allocate the `filter` result, sort it in place, then run the
course body on the sorted fresh array. -/
def heapStep (env : Env) (rr : Nat) (acc : List (List Classroom) × (GenState × List Bool))
    (course : Course) : List (List Classroom) × (GenState × List Bool) :=
  let rooms := acc.1.getD rr []
  let filtered := rooms.filter (fun room => decide (course.capacity ≤ room.capacity))
  let ref := acc.1.length
  let heap1 := acc.1 ++ [filtered]
  let heap2 := heap1.set ref (sortJS roomBefore (heap1.getD ref []))
  (heap2, processCourseWith env (heap2.getD ref []) acc.2 course)

/-- The generator against explicit stores: the caller's `courses` array lives
at `rc` in the course store, its `classrooms` array at `rr` in the classroom
store.  `[...courses]` allocates a copy which is then sorted in place; each
course's candidate-room array is allocated and sorted in place by
`heapStep`.  Returns the schedule and both final stores. -/
def generateTimetableHeap (weekDays timeSlots : List String)
    (courseHeap : List (List Course)) (rc : Nat)
    (roomHeap : List (List Classroom)) (rr : Nat)
    (constraints : List Constraint) (tid : Int) (coins : List Bool) :
    List ScheduledClass × List (List Course) × List (List Classroom) :=
  let env := buildEnv weekDays timeSlots constraints tid
  let courses := courseHeap.getD rc []
  let refc := courseHeap.length
  let heapC1 := courseHeap ++ [courses]
  let heapC2 := heapC1.set refc (sortJS (courseBefore env) (heapC1.getD refc []))
  let sortedCourses := heapC2.getD refc []
  let final := sortedCourses.foldl (heapStep env rr) (roomHeap, (initState, coins))
  ((final.2.1).scheduledClasses, heapC2, final.1)

/-! ### Concrete inputs used by the witnesses and concrete scenarios -/

/-- A 5-day week, as configured in the shared schema. -/
def sampleWeekDays : List String :=
  ["Monday", "Tuesday", "Wednesday", "Thursday", "Friday"]

/-- A 4-slot day of `"HH:MM-HH:MM"` labels. -/
def sampleTimeSlots : List String :=
  ["09:00-10:00", "10:00-11:00", "11:00-12:00", "12:00-13:00"]

/-- A 3-credit course (needs 2 slots) with capacity 30. -/
def sampleCourse : Course :=
  ⟨1, "CS101", 3, 30, 1, 1⟩

/-- A room that fits `sampleCourse`. -/
def sampleRoom : Classroom :=
  ⟨1, 40⟩

/-- The concrete scenario: one course, one instructor, one adequate room,
no constraints. -/
def sampleOptions : GeneratorOptions :=
  ⟨[sampleCourse], [⟨1⟩], [sampleRoom], [], 7⟩

/-- A course whose capacity (100) exceeds every room's. -/
def bigCourse : Course :=
  ⟨1, "CS101", 3, 100, 1, 1⟩

/-- Input with no adequate room for the course. -/
def bigOptions : GeneratorOptions :=
  ⟨[bigCourse], [⟨1⟩], [⟨1, 30⟩], [], 7⟩

/-- A 2-day week (used to expose the randomized day choice). -/
def smallWeekDays : List String :=
  ["Monday", "Tuesday"]

/-- A 1-slot day. -/
def smallTimeSlots : List String :=
  ["09:00-10:00"]

/-- A 2-credit course (needs 1 slot). -/
def smallCourse : Course :=
  ⟨1, "CS101", 2, 30, 1, 1⟩

/-- One course, one instructor, one adequate room, no constraints, on the
2-day 1-slot grid. -/
def smallOptions : GeneratorOptions :=
  ⟨[smallCourse], [⟨1⟩], [sampleRoom], [], 7⟩

/-- A `course_conflict` record whose secondary identifier is not numeric:
`parseInt("abc")` is `NaN` in the source. -/
def malformedConstraint : Constraint :=
  ⟨.course_conflict, 1, "", "abc"⟩

/-- `smallOptions` plus the malformed conflict record. -/
def malformedOptions : GeneratorOptions :=
  ⟨[smallCourse], [⟨1⟩], [sampleRoom], [malformedConstraint], 7⟩

/-- A well-formed `course_conflict` record: course 1 conflicts with course 2. -/
def pairConstraint : Constraint :=
  ⟨.course_conflict, 1, "", "2"⟩

/-- Auditor-input row whose `day` itself contains a `-`. -/
def dashRowA : ScheduledClass :=
  ⟨0, 1, 1, 1, "Mon-09", "00", "10:00", 1⟩

/-- Auditor-input row with a different `(day, startTime, endTime)` tuple but
the same concatenated grouping key as `dashRowA`. -/
def dashRowB : ScheduledClass :=
  ⟨0, 2, 1, 1, "Mon", "09-00", "10:00", 1⟩

/-- Two hand-constructed rows with the same instructor and identical
`(day, startTime, endTime)`, differing elsewhere. -/
def dupRowA : ScheduledClass :=
  ⟨0, 1, 5, 2, "Monday", "09:00", "10:00", 1⟩

/-- Second row of the identical-tuple pair. -/
def dupRowB : ScheduledClass :=
  ⟨0, 2, 5, 3, "Monday", "09:00", "10:00", 1⟩

/-- Correspondence between emitted rows and occupied cells: for every key,
the (day, startTime) projections of that instructor's (resp. classroom's)
rows are exactly the projections of its occupancy list, in commit order
(every row is emitted together with exactly one cell push, and a row's
`startTime` is the trimmed start component of its cell's label). -/
def RowCellSync (st : GenState) : Prop :=
  ∀ i : Int,
    ((st.scheduledClasses.filter (fun r => r.instructorId == i)).map
        (fun r => (r.day, r.startTime)) =
      (st.instructorAssignments i).map (fun s => (s.day, slotStartStr s.timeSlot))) ∧
    ((st.scheduledClasses.filter (fun r => r.classroomId == i)).map
        (fun r => (r.day, r.startTime)) =
      (st.classroomAssignments i).map (fun s => (s.day, slotStartStr s.timeSlot)))

/-! ### Basic lemmas about the availability oracle and the shuffles -/

theorem slotMatches_iff (slot s : ClassSlot) : slotMatches slot s = true ↔ s = slot := by
  cases slot with
  | mk d t =>
    cases s with
    | mk d2 t2 => simp [slotMatches, ClassSlot.mk.injEq, and_comm]

theorem any_slotMatches (l : List ClassSlot) (slot : ClassSlot) :
    l.any (slotMatches slot) = true ↔ slot ∈ l := by
  simp only [List.any_eq_true, slotMatches_iff]
  constructor
  · rintro ⟨x, hx, rfl⟩; exact hx
  · intro h; exact ⟨slot, h, rfl⟩

theorem isSlotAvailable_not_instr {env : Env} {st : GenState} {course : Course}
    {slot : ClassSlot} {roomId : Int} (h : isSlotAvailable env st course slot roomId = true) :
    slot ∉ st.instructorAssignments course.instructorId := by
  intro hmem
  simp only [isSlotAvailable, Bool.and_eq_true, Bool.not_eq_true'] at h
  exact absurd ((any_slotMatches _ _).mpr hmem) (by simp [h.1.1.1.2])

theorem isSlotAvailable_not_room {env : Env} {st : GenState} {course : Course}
    {slot : ClassSlot} {roomId : Int} (h : isSlotAvailable env st course slot roomId = true) :
    slot ∉ st.classroomAssignments roomId := by
  intro hmem
  simp only [isSlotAvailable, Bool.and_eq_true, Bool.not_eq_true'] at h
  exact absurd ((any_slotMatches _ _).mpr hmem) (by simp [h.1.2])

theorem coinInsert_perm (coins : List Bool) (x : α) (ys : List α) :
    (coinInsert coins x ys).1.Perm (x :: ys) := by
  induction ys generalizing coins with
  | nil => simp [coinInsert]
  | cons y ys ih =>
    simp only [coinInsert]
    split
    · exact ((ih _).cons y).trans (List.Perm.swap x y ys)
    · exact List.Perm.refl _

theorem shuffleGo_perm (xs : List α) : ∀ (coins : List Bool) (acc : List α),
    (shuffleGo coins acc xs).1.Perm (acc ++ xs) := by
  induction xs with
  | nil => intro coins acc; simp [shuffleGo]
  | cons x xs ih =>
    intro coins acc
    simp only [shuffleGo]
    refine (ih _ _).trans ?_
    refine (List.Perm.append_right xs (coinInsert_perm coins x acc)).trans ?_
    exact (List.perm_middle).symm

theorem shuffleJS_perm (coins : List Bool) (xs : List α) :
    (shuffleJS coins xs).1.Perm xs := by
  simpa using shuffleGo_perm xs coins []

theorem mem_shuffleJS {coins : List Bool} {xs : List α} {y : α}
    (h : y ∈ (shuffleJS coins xs).1) : y ∈ xs :=
  (shuffleJS_perm coins xs).mem_iff.mp h

theorem insLE_perm (le : α → α → Bool) (x : α) (l : List α) :
    (insLE le x l).Perm (x :: l) := by
  induction l with
  | nil => exact List.Perm.refl _
  | cons y ys ih =>
    simp only [insLE]
    split
    · exact (ih.cons y).trans (List.Perm.swap x y ys)
    · exact List.Perm.refl _

theorem sortGo_perm (le : α → α → Bool) (xs : List α) : ∀ (acc : List α),
    (sortGo le acc xs).Perm (acc ++ xs) := by
  induction xs with
  | nil => intro acc; simp [sortGo]
  | cons x xs ih =>
    intro acc
    simp only [sortGo]
    refine (ih _).trans ?_
    refine (List.Perm.append_right xs (insLE_perm le x acc)).trans ?_
    exact (List.perm_middle).symm

theorem sortJS_perm (le : α → α → Bool) (xs : List α) : (sortJS le xs).Perm xs := by
  simpa using sortGo_perm le xs []

/-! ### Characterization of the block commit loop -/

theorem commitFold_sched (env : Env) (course : Course) (roomId : Int) (day : String)
    (startIdx k : Nat) (js : List Nat) : ∀ (st : GenState),
    (js.foldl (commitStep env course roomId day startIdx k) st).scheduledClasses =
      st.scheduledClasses ++ js.map (mkBlockRow env course roomId day startIdx k) := by
  induction js with
  | nil => intro st; simp
  | cons j js ih =>
    intro st
    rw [List.foldl_cons, ih]
    simp [commitStep]

theorem commitFold_instr (env : Env) (course : Course) (roomId : Int) (day : String)
    (startIdx k : Nat) (js : List Nat) : ∀ (st : GenState) (i : Int),
    (js.foldl (commitStep env course roomId day startIdx k) st).instructorAssignments i =
      if i = course.instructorId
      then st.instructorAssignments i ++ js.map (cellAt env day startIdx)
      else st.instructorAssignments i := by
  induction js with
  | nil => intro st i; split <;> simp
  | cons j js ih =>
    intro st i
    rw [List.foldl_cons, ih]
    by_cases h : i = course.instructorId
    · simp [h, commitStep, pushA]
    · simp [h, commitStep, pushA]

theorem commitFold_class (env : Env) (course : Course) (roomId : Int) (day : String)
    (startIdx k : Nat) (js : List Nat) : ∀ (st : GenState) (i : Int),
    (js.foldl (commitStep env course roomId day startIdx k) st).classroomAssignments i =
      if i = roomId
      then st.classroomAssignments i ++ js.map (cellAt env day startIdx)
      else st.classroomAssignments i := by
  induction js with
  | nil => intro st i; split <;> simp
  | cons j js ih =>
    intro st i
    rw [List.foldl_cons, ih]
    by_cases h : i = roomId
    · simp [h, commitStep, pushA]
    · simp [h, commitStep, pushA]

theorem commitFold_warn (env : Env) (course : Course) (roomId : Int) (day : String)
    (startIdx k : Nat) (js : List Nat) : ∀ (st : GenState),
    (js.foldl (commitStep env course roomId day startIdx k) st).warnings = st.warnings := by
  induction js with
  | nil => intro st; rfl
  | cons j js ih =>
    intro st
    rw [List.foldl_cons, ih]
    simp [commitStep]

theorem commitBlock_sched (env : Env) (course : Course) (roomId : Int) (day : String)
    (startIdx k : Nat) (st : GenState) :
    (commitBlock env course roomId day startIdx k st).scheduledClasses =
      st.scheduledClasses ++ blockRows env course roomId day startIdx k :=
  commitFold_sched env course roomId day startIdx k (List.range k) st

theorem checkBlock_avail {env : Env} {course : Course} {roomId : Int} {day : String}
    {startIdx k : Nat} {st : GenState}
    (h : checkBlock env course roomId day startIdx k st = true) :
    ∀ j < k, isSlotAvailable env st course (cellAt env day startIdx j) roomId = true := by
  intro j hj
  exact List.all_eq_true.mp h j (List.mem_range.mpr hj)

theorem getD_inj_of_nodup {ts : List String} (h : ts.Nodup) {a b : Nat}
    (ha : a < ts.length) (hb : b < ts.length) (he : ts.getD a "" = ts.getD b "") : a = b := by
  rw [List.getD_eq_getElem ts "" ha, List.getD_eq_getElem ts "" hb] at he
  exact (h.getElem_inj_iff).mp he

theorem blockCells_nodup (env : Env) (day : String) {startIdx k : Nat}
    (hts : env.timeSlots.Nodup) (hr : startIdx + k ≤ env.timeSlots.length) :
    ((List.range k).map (cellAt env day startIdx)).Nodup := by
  refine List.Nodup.map_on ?_ (List.nodup_range k)
  intro x hx y hy hxy
  have hx2 := List.mem_range.mp hx
  have hy2 := List.mem_range.mp hy
  simp only [cellAt, ClassSlot.mk.injEq, true_and] at hxy
  have hx3 : startIdx + x < env.timeSlots.length := by omega
  have hy3 : startIdx + y < env.timeSlots.length := by omega
  have := getD_inj_of_nodup hts hx3 hy3 hxy
  omega

/-! ### The no-double-booking invariant -/

theorem commitBlock_inv {env : Env} {course : Course} {roomId : Int} {day : String}
    {startIdx k : Nat} {st : GenState} (hts : env.timeSlots.Nodup)
    (hr : startIdx + k ≤ env.timeSlots.length)
    (hc : checkBlock env course roomId day startIdx k st = true) (hI : InvS st) :
    InvS (commitBlock env course roomId day startIdx k st) := by
  intro i
  constructor
  · rw [commitBlock, commitFold_instr]
    split
    case isTrue h =>
      rw [List.nodup_append]
      refine ⟨(hI i).1, blockCells_nodup env day hts hr, ?_⟩
      intro a ha hb
      obtain ⟨j, hj, rfl⟩ := List.mem_map.mp hb
      have hav := checkBlock_avail hc j (List.mem_range.mp hj)
      exact isSlotAvailable_not_instr hav (h ▸ ha)
    case isFalse h => exact (hI i).1
  · rw [commitBlock, commitFold_class]
    split
    case isTrue h =>
      rw [List.nodup_append]
      refine ⟨(hI i).2, blockCells_nodup env day hts hr, ?_⟩
      intro a ha hb
      obtain ⟨j, hj, rfl⟩ := List.mem_map.mp hb
      have hav := checkBlock_avail hc j (List.mem_range.mp hj)
      exact isSlotAvailable_not_room hav (h ▸ ha)
    case isFalse h => exact (hI i).2

theorem commitSingle_inv {env : Env} {course : Course} {roomId : Int} {slot : ClassSlot}
    {st : GenState} (hav : isSlotAvailable env st course slot roomId = true) (hI : InvS st) :
    InvS (commitSingle env course roomId slot st) := by
  intro i
  constructor
  · show (pushA st.instructorAssignments course.instructorId slot i).Nodup
    unfold pushA
    split
    case isTrue h =>
      rw [List.nodup_append]
      refine ⟨(hI i).1, List.nodup_singleton slot, ?_⟩
      intro a ha hb
      rw [List.mem_singleton] at hb
      subst hb
      exact isSlotAvailable_not_instr hav (h ▸ ha)
    case isFalse h => exact (hI i).1
  · show (pushA st.classroomAssignments roomId slot i).Nodup
    unfold pushA
    split
    case isTrue h =>
      rw [List.nodup_append]
      refine ⟨(hI i).2, List.nodup_singleton slot, ?_⟩
      intro a ha hb
      rw [List.mem_singleton] at hb
      subst hb
      exact isSlotAvailable_not_room hav (h ▸ ha)
    case isFalse h => exact (hI i).2

theorem scatterSlots_inv (env : Env) (course : Course) (roomId : Int) (k : Nat) :
    ∀ (slots : List ClassSlot) (st : GenState) (n : Nat), InvS st →
      InvS (scatterSlots env course roomId k slots st n).1 := by
  intro slots
  induction slots with
  | nil => intro st n hI; exact hI
  | cons slot rest ih =>
    intro st n hI
    simp only [scatterSlots]
    split
    · exact hI
    · split
      case isTrue hav => exact ih _ _ (commitSingle_inv hav hI)
      case isFalse => exact ih _ _ hI

theorem scatterRooms_inv (env : Env) (course : Course) (k : Nat) (slots : List ClassSlot) :
    ∀ (rooms : List Classroom) (st : GenState) (n : Nat), InvS st →
      InvS (scatterRooms env course k slots rooms st n).1 := by
  intro rooms
  induction rooms with
  | nil => intro st n hI; exact hI
  | cons room rest ih =>
    intro st n hI
    simp only [scatterRooms]
    split
    · exact hI
    · exact ih _ _ (scatterSlots_inv env course room.id k slots st n hI)

theorem tryStarts_some (env : Env) (course : Course) (roomId : Int) (day : String) (k : Nat) :
    ∀ (starts : List Nat) (st st1 : GenState),
      tryStarts env course roomId day k starts st = some st1 →
      ∃ s ∈ starts, checkBlock env course roomId day s k st = true ∧
        st1 = commitBlock env course roomId day s k st := by
  intro starts
  induction starts with
  | nil => intro st st1 h; simp [tryStarts] at h
  | cons s rest ih =>
    intro st st1 h
    simp only [tryStarts] at h
    split at h
    case isTrue hc =>
      exact ⟨s, List.mem_cons_self s rest, hc, (Option.some.inj h).symm⟩
    case isFalse hc =>
      obtain ⟨s2, hmem, hcb, he⟩ := ih st st1 h
      exact ⟨s2, List.mem_cons_of_mem s hmem, hcb, he⟩

theorem startCount_bound {env : Env} {k s : Nat} (h : s < startCount env k) :
    s + k ≤ env.timeSlots.length := by
  unfold startCount at h
  split at h <;> omega

theorem tryDays_some (env : Env) (course : Course) (roomId : Int) (k : Nat) :
    ∀ (days : List String) (st : GenState) (coins : List Bool) (st1 : GenState)
      (coins1 : List Bool),
      tryDays env course roomId k days st coins = (some st1, coins1) →
      ∃ day s, s < startCount env k ∧ checkBlock env course roomId day s k st = true ∧
        st1 = commitBlock env course roomId day s k st := by
  intro days
  induction days with
  | nil => intro st coins st1 coins1 h; simp [tryDays] at h
  | cons day rest ih =>
    intro st coins st1 coins1 h
    simp only [tryDays] at h
    rcases htr : tryStarts env course roomId day k
        (shuffleJS coins (List.range (startCount env k))).1 st with _ | st2
    · rw [htr] at h
      exact ih _ _ _ _ h
    · rw [htr] at h
      obtain ⟨s, hmem, hcb, he⟩ := tryStarts_some env course roomId day k _ st st2 htr
      have hs : s < startCount env k := List.mem_range.mp (mem_shuffleJS hmem)
      have : st2 = st1 := congrArg Prod.fst h |> Option.some.inj
      exact ⟨day, s, hs, hcb, this ▸ he⟩

theorem tryRooms_some (env : Env) (course : Course) (k : Nat) (days : List String) :
    ∀ (rooms : List Classroom) (st : GenState) (coins : List Bool) (st1 : GenState)
      (coins1 : List Bool),
      tryRooms env course k days rooms st coins = (some st1, coins1) →
      ∃ rid day s, s < startCount env k ∧ checkBlock env course rid day s k st = true ∧
        st1 = commitBlock env course rid day s k st := by
  intro rooms
  induction rooms with
  | nil => intro st coins st1 coins1 h; simp [tryRooms] at h
  | cons room rest ih =>
    intro st coins st1 coins1 h
    simp only [tryRooms] at h
    rcases htd : tryDays env course room.id k days st coins with ⟨os, coins2⟩
    rw [htd] at h
    cases os with
    | none => exact ih _ _ _ _ h
    | some st2 =>
      have h1 : st2 = st1 := congrArg Prod.fst h |> Option.some.inj
      obtain ⟨day, s, hs, hcb, he⟩ := tryDays_some env course room.id k days st coins st2 coins2 htd
      exact ⟨room.id, day, s, hs, hcb, h1 ▸ he⟩

theorem processCourseWith_inv {env : Env} {rooms : List Classroom} {course : Course}
    {p : GenState × List Bool} (hts : env.timeSlots.Nodup) (hI : InvS p.1) :
    InvS (processCourseWith env rooms p course).1 := by
  unfold processCourseWith
  dsimp only
  split
  · exact fun i => hI i
  · rcases htr : tryRooms env course (slotsNeeded course)
        (shuffleJS p.2 env.weekDays).1 rooms p.1 (shuffleJS p.2 env.weekDays).2 with ⟨os, coins1⟩
    cases os with
    | some st1 =>
      dsimp only
      obtain ⟨rid, day, s, hs, hcb, he⟩ :=
        tryRooms_some env course (slotsNeeded course) _ rooms p.1 _ st1 coins1 htr
      subst he
      exact commitBlock_inv hts (startCount_bound hs) hcb hI
    | none =>
      dsimp only
      have hsc := scatterRooms_inv env course (slotsNeeded course)
        (shuffleJS coins1 env.allSlots).1 rooms p.1 0 hI
      split
      · exact fun i => hsc i
      · exact hsc

theorem foldl_processCourse_inv (env : Env) (classrooms : List Classroom)
    (hts : env.timeSlots.Nodup) :
    ∀ (courses : List Course) (p : GenState × List Bool), InvS p.1 →
      InvS (courses.foldl (processCourse env classrooms) p).1 := by
  intro courses
  induction courses with
  | nil => intro p hI; exact hI
  | cons c rest ih =>
    intro p hI
    rw [List.foldl_cons]
    exact ih _ (processCourseWith_inv hts hI)

theorem blockRows_filter_instr (env : Env) (course : Course) (roomId : Int) (day : String)
    (startIdx k : Nat) (i : Int) :
    (blockRows env course roomId day startIdx k).filter (fun r => r.instructorId == i) =
      if i = course.instructorId then blockRows env course roomId day startIdx k else [] := by
  by_cases h : i = course.instructorId
  · rw [if_pos h, List.filter_eq_self]
    intro r hr
    obtain ⟨j, _, rfl⟩ := List.mem_map.mp hr
    simp [mkBlockRow, h]
  · rw [if_neg h, List.filter_eq_nil_iff]
    intro r hr
    obtain ⟨j, _, rfl⟩ := List.mem_map.mp hr
    simp only [mkBlockRow, beq_iff_eq]
    exact fun he => h he.symm

theorem blockRows_filter_class (env : Env) (course : Course) (roomId : Int) (day : String)
    (startIdx k : Nat) (i : Int) :
    (blockRows env course roomId day startIdx k).filter (fun r => r.classroomId == i) =
      if i = roomId then blockRows env course roomId day startIdx k else [] := by
  by_cases h : i = roomId
  · rw [if_pos h, List.filter_eq_self]
    intro r hr
    obtain ⟨j, _, rfl⟩ := List.mem_map.mp hr
    simp [mkBlockRow, h]
  · rw [if_neg h, List.filter_eq_nil_iff]
    intro r hr
    obtain ⟨j, _, rfl⟩ := List.mem_map.mp hr
    simp only [mkBlockRow, beq_iff_eq]
    exact fun he => h he.symm

theorem blockRows_pairs (env : Env) (course : Course) (roomId : Int) (day : String)
    (startIdx k : Nat) :
    (blockRows env course roomId day startIdx k).map (fun r => (r.day, r.startTime)) =
      ((List.range k).map (cellAt env day startIdx)).map
        (fun s => (s.day, slotStartStr s.timeSlot)) := by
  simp only [blockRows, List.map_map]
  rfl

theorem commitBlock_sync {env : Env} {course : Course} {roomId : Int} {day : String}
    {startIdx k : Nat} {st : GenState} (h : RowCellSync st) :
    RowCellSync (commitBlock env course roomId day startIdx k st) := by
  intro i
  constructor
  · rw [commitBlock_sched, commitBlock, commitFold_instr, List.filter_append, List.map_append,
      (h i).1, blockRows_filter_instr]
    by_cases hi : i = course.instructorId
    · rw [if_pos hi, if_pos hi, List.map_append, blockRows_pairs]
    · rw [if_neg hi, if_neg hi]
      simp
  · rw [commitBlock_sched, commitBlock, commitFold_class, List.filter_append, List.map_append,
      (h i).2, blockRows_filter_class]
    by_cases hi : i = roomId
    · rw [if_pos hi, if_pos hi, List.map_append, blockRows_pairs]
    · rw [if_neg hi, if_neg hi]
      simp

theorem commitSingle_sync {env : Env} {course : Course} {roomId : Int} {slot : ClassSlot}
    {st : GenState} (h : RowCellSync st) :
    RowCellSync (commitSingle env course roomId slot st) := by
  intro i
  constructor
  · show ((st.scheduledClasses ++ [mkSingleRow env course roomId slot]).filter
        (fun r => r.instructorId == i)).map (fun r => (r.day, r.startTime)) =
      (pushA st.instructorAssignments course.instructorId slot i).map
        (fun s => (s.day, slotStartStr s.timeSlot))
    rw [List.filter_append, List.map_append, (h i).1]
    unfold pushA
    by_cases hi : i = course.instructorId
    · rw [if_pos hi, List.map_append]
      congr 1
      simp [mkSingleRow, hi]
    · rw [if_neg hi]
      have hbeq : (course.instructorId == i) = false :=
        beq_eq_false_iff_ne.mpr (fun he => hi he.symm)
      have hnil : ([mkSingleRow env course roomId slot].filter
          (fun r => r.instructorId == i)) = [] := by
        simp [mkSingleRow, hbeq]
      rw [hnil]
      simp
  · show ((st.scheduledClasses ++ [mkSingleRow env course roomId slot]).filter
        (fun r => r.classroomId == i)).map (fun r => (r.day, r.startTime)) =
      (pushA st.classroomAssignments roomId slot i).map
        (fun s => (s.day, slotStartStr s.timeSlot))
    rw [List.filter_append, List.map_append, (h i).2]
    unfold pushA
    by_cases hi : i = roomId
    · rw [if_pos hi, List.map_append]
      congr 1
      simp [mkSingleRow, hi]
    · rw [if_neg hi]
      have hbeq : (roomId == i) = false :=
        beq_eq_false_iff_ne.mpr (fun he => hi he.symm)
      have hnil : ([mkSingleRow env course roomId slot].filter
          (fun r => r.classroomId == i)) = [] := by
        simp [mkSingleRow, hbeq]
      rw [hnil]
      simp

theorem scatterSlots_sync (env : Env) (course : Course) (roomId : Int) (k : Nat) :
    ∀ (slots : List ClassSlot) (st : GenState) (n : Nat), RowCellSync st →
      RowCellSync (scatterSlots env course roomId k slots st n).1 := by
  intro slots
  induction slots with
  | nil => intro st n h; exact h
  | cons slot rest ih =>
    intro st n h
    simp only [scatterSlots]
    split
    · exact h
    · split
      case isTrue hav => exact ih _ _ (commitSingle_sync h)
      case isFalse => exact ih _ _ h

theorem scatterRooms_sync (env : Env) (course : Course) (k : Nat) (slots : List ClassSlot) :
    ∀ (rooms : List Classroom) (st : GenState) (n : Nat), RowCellSync st →
      RowCellSync (scatterRooms env course k slots rooms st n).1 := by
  intro rooms
  induction rooms with
  | nil => intro st n h; exact h
  | cons room rest ih =>
    intro st n h
    simp only [scatterRooms]
    split
    · exact h
    · exact ih _ _ (scatterSlots_sync env course room.id k slots st n h)

theorem processCourseWith_sync {env : Env} {rooms : List Classroom} {course : Course}
    {p : GenState × List Bool} (h : RowCellSync p.1) :
    RowCellSync (processCourseWith env rooms p course).1 := by
  unfold processCourseWith
  dsimp only
  split
  · exact fun i => h i
  · rcases htr : tryRooms env course (slotsNeeded course)
        (shuffleJS p.2 env.weekDays).1 rooms p.1 (shuffleJS p.2 env.weekDays).2 with ⟨os, coins1⟩
    cases os with
    | some st1 =>
      dsimp only
      obtain ⟨rid, day, s, hs, hcb, he⟩ :=
        tryRooms_some env course (slotsNeeded course) _ rooms p.1 _ st1 coins1 htr
      subst he
      exact commitBlock_sync h
    | none =>
      dsimp only
      have hsc := scatterRooms_sync env course (slotsNeeded course)
        (shuffleJS coins1 env.allSlots).1 rooms p.1 0 h
      split
      · exact fun i => hsc i
      · exact hsc

theorem foldl_processCourse_sync (env : Env) (classrooms : List Classroom) :
    ∀ (courses : List Course) (p : GenState × List Bool), RowCellSync p.1 →
      RowCellSync (courses.foldl (processCourse env classrooms) p).1 := by
  intro courses
  induction courses with
  | nil => intro p h; exact h
  | cons c rest ih =>
    intro p h
    rw [List.foldl_cons]
    exact ih _ (processCourseWith_sync h)

/-- C1: for every input and every randomness stream, assuming the configured
time-slot labels are pairwise distinct (implied by pairwise non-overlapping),
no instructor and no classroom is double-booked on any placed (day, timeSlot)
cell: the final occupancy lists of `generateTimetable`'s run contain no
duplicate cell for any instructor or classroom key, and each instructor's
(resp. classroom's) emitted rows project, one for one and in order, onto its
occupied cells, so no (day, timeSlot) cell is covered by two rows of the same
instructor or classroom. -/
theorem c1_no_double_booking (weekDays timeSlots : List String) (opts : GeneratorOptions)
    (coins : List Bool) (hts : timeSlots.Nodup) :
    (∀ i : Int,
      ((generateTimetableFull weekDays timeSlots opts coins).1.instructorAssignments i).Nodup ∧
      ((generateTimetableFull weekDays timeSlots opts coins).1.classroomAssignments i).Nodup) ∧
    RowCellSync (generateTimetableFull weekDays timeSlots opts coins).1 := by
  constructor
  · have h0 : InvS initState := fun _ => ⟨List.nodup_nil, List.nodup_nil⟩
    exact foldl_processCourse_inv
      (buildEnv weekDays timeSlots opts.constraints opts.timetableId)
      opts.classrooms hts
      (sortJS (courseBefore (buildEnv weekDays timeSlots opts.constraints opts.timetableId))
        opts.courses)
      (initState, coins) h0
  · have h0 : RowCellSync initState := fun _ => ⟨rfl, rfl⟩
    exact foldl_processCourse_sync
      (buildEnv weekDays timeSlots opts.constraints opts.timetableId)
      opts.classrooms
      (sortJS (courseBefore (buildEnv weekDays timeSlots opts.constraints opts.timetableId))
        opts.courses)
      (initState, coins) h0

/-- Witness for C1 at a concrete input. -/
theorem c1_no_double_booking_witness :
    sampleTimeSlots.Nodup ∧
      (((generateTimetableFull sampleWeekDays sampleTimeSlots sampleOptions
          []).1.instructorAssignments 1).Nodup ∧
        ((generateTimetableFull sampleWeekDays sampleTimeSlots sampleOptions
          []).1.classroomAssignments 1).Nodup) :=
  ⟨by decide,
    (c1_no_double_booking sampleWeekDays sampleTimeSlots sampleOptions [] (by decide)).1 1⟩

/-! ### Per-course output characterization (no over-scheduling) -/

theorem scatterSlots_sched (env : Env) (course : Course) (roomId : Int) (k : Nat) :
    ∀ (slots : List ClassSlot) (st : GenState) (n : Nat),
      ∃ added, (scatterSlots env course roomId k slots st n).1.scheduledClasses =
          st.scheduledClasses ++ added ∧
        added.length + n = (scatterSlots env course roomId k slots st n).2 ∧
        (n ≤ k → (scatterSlots env course roomId k slots st n).2 ≤ k) ∧
        ∀ r ∈ added, r.courseId = course.id := by
  intro slots
  induction slots with
  | nil =>
    intro st n
    exact ⟨[], by simp [scatterSlots], by simp [scatterSlots], fun h => by simp [scatterSlots, h],
      by simp⟩
  | cons slot rest ih =>
    intro st n
    simp only [scatterSlots]
    split
    case isTrue hk =>
      exact ⟨[], by simp, by simp, fun h => h, by simp⟩
    case isFalse hk =>
      split
      case isTrue hav =>
        obtain ⟨added, hsched, hlen, hbound, hmem⟩ :=
          ih (commitSingle env course roomId slot st) (n + 1)
        refine ⟨mkSingleRow env course roomId slot :: added, ?_, ?_, ?_, ?_⟩
        · rw [hsched]
          simp [commitSingle]
        · simp only [List.length_cons]
          omega
        · intro _
          exact hbound (by omega)
        · intro r hr
          rcases List.mem_cons.mp hr with rfl | hr2
          · rfl
          · exact hmem r hr2
      case isFalse hav => exact ih st n

theorem scatterRooms_sched (env : Env) (course : Course) (k : Nat) (slots : List ClassSlot) :
    ∀ (rooms : List Classroom) (st : GenState) (n : Nat),
      ∃ added, (scatterRooms env course k slots rooms st n).1.scheduledClasses =
          st.scheduledClasses ++ added ∧
        added.length + n = (scatterRooms env course k slots rooms st n).2 ∧
        (n ≤ k → (scatterRooms env course k slots rooms st n).2 ≤ k) ∧
        ∀ r ∈ added, r.courseId = course.id := by
  intro rooms
  induction rooms with
  | nil =>
    intro st n
    exact ⟨[], by simp [scatterRooms], by simp [scatterRooms],
      fun h => by simp [scatterRooms, h], by simp⟩
  | cons room rest ih =>
    intro st n
    simp only [scatterRooms]
    split
    case isTrue hk =>
      exact ⟨[], by simp, by simp, fun h => h, by simp⟩
    case isFalse hk =>
      obtain ⟨a1, hs1, hl1, hb1, hm1⟩ := scatterSlots_sched env course room.id k slots st n
      obtain ⟨a2, hs2, hl2, hb2, hm2⟩ :=
        ih (scatterSlots env course room.id k slots st n).1
          (scatterSlots env course room.id k slots st n).2
      refine ⟨a1 ++ a2, ?_, ?_, ?_, ?_⟩
      · rw [hs2, hs1, List.append_assoc]
      · simp only [List.length_append]
        omega
      · intro hn2
        exact hb2 (hb1 hn2)
      · intro r hr
        rcases List.mem_append.mp hr with h | h
        · exact hm1 r h
        · exact hm2 r h

theorem processCourseWith_sched (env : Env) (rooms : List Classroom) (course : Course)
    (p : GenState × List Bool) :
    ∃ added, (processCourseWith env rooms p course).1.scheduledClasses =
        p.1.scheduledClasses ++ added ∧
      added.length ≤ slotsNeeded course ∧
      ∀ r ∈ added, r.courseId = course.id := by
  unfold processCourseWith
  dsimp only
  split
  · exact ⟨[], by simp, by simp, by simp⟩
  · rcases htr : tryRooms env course (slotsNeeded course)
        (shuffleJS p.2 env.weekDays).1 rooms p.1 (shuffleJS p.2 env.weekDays).2 with ⟨os, coins1⟩
    cases os with
    | some st1 =>
      dsimp only
      obtain ⟨rid, day, s, hs, hcb, he⟩ :=
        tryRooms_some env course (slotsNeeded course) _ rooms p.1 _ st1 coins1 htr
      subst he
      refine ⟨blockRows env course rid day s (slotsNeeded course),
        commitBlock_sched env course rid day s (slotsNeeded course) p.1, ?_, ?_⟩
      · simp [blockRows]
      · intro r hr
        obtain ⟨j, _, rfl⟩ := List.mem_map.mp hr
        rfl
    | none =>
      dsimp only
      obtain ⟨added, hsched, hlen, hbound, hmem⟩ :=
        scatterRooms_sched env course (slotsNeeded course)
          (shuffleJS coins1 env.allSlots).1 rooms p.1 0
      have hle : added.length ≤ slotsNeeded course := by
        have := hbound (Nat.zero_le _)
        omega
      split
      · exact ⟨added, by simpa using hsched, hle, hmem⟩
      · exact ⟨added, hsched, hle, hmem⟩

theorem foldl_processCourse_count (env : Env) (classrooms : List Classroom) (cid : Int) :
    ∀ (courses : List Course) (p : GenState × List Bool),
      ((courses.foldl (processCourse env classrooms) p).1.scheduledClasses).countP
          (fun r => r.courseId == cid) ≤
        (p.1.scheduledClasses).countP (fun r => r.courseId == cid) +
          ((courses.filter (fun x => x.id == cid)).map slotsNeeded).sum := by
  intro courses
  induction courses with
  | nil => intro p; simp
  | cons c rest ih =>
    intro p
    rw [List.foldl_cons]
    refine le_trans (ih _) ?_
    obtain ⟨added, hsched, hlen, hmem⟩ :=
      processCourseWith_sched env (suitableRoomsOf classrooms c) c p
    have hsched2 : (processCourse env classrooms p c).1.scheduledClasses =
        p.1.scheduledClasses ++ added := hsched
    rw [hsched2, List.countP_append, List.filter_cons]
    by_cases hc : c.id = cid
    · have h1 : added.countP (fun r => r.courseId == cid) ≤ slotsNeeded c :=
        le_trans (List.countP_le_length _) hlen
      simp only [hc, beq_self_eq_true, if_true, List.map_cons, List.sum_cons]
      omega
    · have h0 : added.countP (fun r => r.courseId == cid) = 0 :=
        List.countP_eq_zero.mpr (fun r hr => by simp [hmem r hr, hc])
      have hcb : (c.id == cid) = false := beq_eq_false_iff_ne.mpr hc
      simp only [hcb, Bool.false_eq_true, if_false, h0]
      omega

theorem filter_id_single {l : List Course} {c : Course}
    (hn : (l.map Course.id).Nodup) (hc : c ∈ l) :
    l.filter (fun x => x.id == c.id) = [c] := by
  induction l with
  | nil => cases hc
  | cons a rest ih =>
    rw [List.map_cons, List.nodup_cons] at hn
    rcases List.mem_cons.mp hc with rfl | hmem
    · rw [List.filter_cons]
      simp only [beq_self_eq_true, if_true]
      have hrest : rest.filter (fun x => x.id == c.id) = [] := by
        rw [List.filter_eq_nil_iff]
        intro x hx
        simp only [beq_iff_eq]
        intro he
        exact hn.1 (he ▸ List.mem_map.mpr ⟨x, hx, rfl⟩)
      rw [hrest]
    · have hne : (a.id == c.id) = false := by
        rw [beq_eq_false_iff_ne]
        intro he
        exact hn.1 (he ▸ List.mem_map.mpr ⟨c, hmem, rfl⟩)
      rw [List.filter_cons, hne]
      simp only [Bool.false_eq_true, if_false]
      exact ih hn.2 hmem

/-- C10: for every input whose courses carry pairwise distinct identifiers
and every course of the input, `generateTimetable` emits at most
`slotsNeeded` rows carrying that course's id: the contiguous phase commits
exactly `slotsNeeded` rows and stops, and the scattered fallback stops as
soon as `slotsNeeded` single-slot rows are placed. -/
theorem c10_no_overscheduling (weekDays timeSlots : List String) (opts : GeneratorOptions)
    (coins : List Bool) (c : Course) (hn : (opts.courses.map Course.id).Nodup)
    (hc : c ∈ opts.courses) :
    (generateTimetable weekDays timeSlots opts coins).countP
        (fun r => r.courseId == c.id) ≤ slotsNeeded c := by
  unfold generateTimetable generateTimetableFull
  dsimp only
  refine le_trans (foldl_processCourse_count
    (buildEnv weekDays timeSlots opts.constraints opts.timetableId)
    opts.classrooms c.id _ (initState, coins)) ?_
  have hperm : (sortJS (courseBefore
      (buildEnv weekDays timeSlots opts.constraints opts.timetableId)) opts.courses).Perm
      opts.courses := sortJS_perm _ _
  have hsum : (((sortJS (courseBefore
        (buildEnv weekDays timeSlots opts.constraints opts.timetableId)) opts.courses).filter
          (fun x => x.id == c.id)).map slotsNeeded).sum =
      ((opts.courses.filter (fun x => x.id == c.id)).map slotsNeeded).sum :=
    ((hperm.filter _).map slotsNeeded).sum_eq
  rw [hsum, filter_id_single hn hc]
  simp [initState]

/-- Witness for C10 at a concrete input. -/
theorem c10_no_overscheduling_witness :
    (sampleOptions.courses.map Course.id).Nodup ∧ sampleCourse ∈ sampleOptions.courses ∧
      (generateTimetable sampleWeekDays sampleTimeSlots sampleOptions []).countP
        (fun r => r.courseId == sampleCourse.id) ≤ slotsNeeded sampleCourse :=
  ⟨by decide, by decide,
    c10_no_overscheduling sampleWeekDays sampleTimeSlots sampleOptions [] sampleCourse
      (by decide) (by decide)⟩

/-- C3: the allocator seeks exactly `slotsNeeded` slots: 3 when credits ≥ 4,
2 when 3 ≤ credits < 4, 1 when credits < 3; and a committed contiguous block
for a course consists of exactly `slotsNeeded` rows. -/
theorem c3_slot_count (c : Course) :
    (4 ≤ c.credits → slotsNeeded c = 3) ∧
    (3 ≤ c.credits → c.credits < 4 → slotsNeeded c = 2) ∧
    (c.credits < 3 → slotsNeeded c = 1) ∧
    (∀ (env : Env) (roomId : Int) (day : String) (startIdx : Nat),
      (blockRows env c roomId day startIdx (slotsNeeded c)).length = slotsNeeded c) := by
  refine ⟨?_, ?_, ?_, ?_⟩
  · intro h
    rw [slotsNeeded, if_pos h]
  · intro h1 h2
    rw [slotsNeeded, if_neg (not_le.mpr h2), if_pos h1]
  · intro h
    rw [slotsNeeded, if_neg (not_le.mpr (h.trans (by norm_num))), if_neg (not_le.mpr h)]
  · intro env roomId day startIdx
    simp [blockRows]

/-- Witness for C3 at a concrete course (credits 3 needs 2 slots). -/
theorem c3_slot_count_witness :
    (3 : ℚ) ≤ sampleCourse.credits ∧ sampleCourse.credits < 4 ∧ slotsNeeded sampleCourse = 2 :=
  ⟨by decide, by decide, (c3_slot_count sampleCourse).2.1 (by decide) (by decide)⟩

theorem blockRows_getD (env : Env) (course : Course) (roomId : Int) (day : String)
    (startIdx : Nat) {j k : Nat} (h : j < k) :
    (blockRows env course roomId day startIdx k).getD j defRow =
      mkBlockRow env course roomId day startIdx k j := by
  have hlen : j < (blockRows env course roomId day startIdx k).length := by
    simpa [blockRows] using h
  rw [List.getD_eq_getElem _ _ hlen]
  simp [blockRows]

/-- C6: a committed contiguous block of `k` slots starting at `startIdx` on
day `day` in room `roomId` appends exactly the rows `blockRows`; these are
all on that day, in that room, for that course, and collapse into one
continuous wall-clock range (first start, chained inner boundaries, last
end).  In the concrete 1-course / credits-3 scenario this yields exactly 2
contiguous same-day rows in the matching room with the matching
instructor. -/
theorem c6_contiguous_block (env : Env) (course : Course) (roomId : Int) (day : String)
    (startIdx k : Nat) (hk : 0 < k) (_hkr : startIdx + k ≤ env.timeSlots.length) :
    ((∀ st : GenState, (commitBlock env course roomId day startIdx k st).scheduledClasses =
        st.scheduledClasses ++ blockRows env course roomId day startIdx k) ∧
      (blockRows env course roomId day startIdx k).length = k ∧
      (∀ r ∈ blockRows env course roomId day startIdx k,
        r.day = day ∧ r.classroomId = roomId ∧ r.courseId = course.id) ∧
      ((blockRows env course roomId day startIdx k).getD 0 defRow).startTime =
        slotStartStr (env.timeSlots.getD startIdx "") ∧
      ((blockRows env course roomId day startIdx k).getD (k - 1) defRow).endTime =
        slotEndStr (env.timeSlots.getD (startIdx + (k - 1)) "") ∧
      (∀ j, j + 1 < k →
        ((blockRows env course roomId day startIdx k).getD j defRow).endTime =
          ((blockRows env course roomId day startIdx k).getD (j + 1) defRow).startTime)) ∧
    ((generateTimetable sampleWeekDays sampleTimeSlots sampleOptions []).length = 2 ∧
      ((generateTimetable sampleWeekDays sampleTimeSlots sampleOptions []).getD 0 defRow).day =
        ((generateTimetable sampleWeekDays sampleTimeSlots sampleOptions []).getD 1 defRow).day ∧
      ((generateTimetable sampleWeekDays sampleTimeSlots sampleOptions []).getD 0
          defRow).endTime =
        ((generateTimetable sampleWeekDays sampleTimeSlots sampleOptions []).getD 1
          defRow).startTime ∧
      ((generateTimetable sampleWeekDays sampleTimeSlots sampleOptions []).getD 0
          defRow).classroomId = sampleRoom.id ∧
      ((generateTimetable sampleWeekDays sampleTimeSlots sampleOptions []).getD 0
          defRow).instructorId = sampleCourse.instructorId ∧
      ((generateTimetable sampleWeekDays sampleTimeSlots sampleOptions []).getD 1
          defRow).classroomId = sampleRoom.id) := by
  constructor
  · refine ⟨?_, ?_, ?_, ?_, ?_, ?_⟩
    · intro st
      exact commitBlock_sched env course roomId day startIdx k st
    · simp [blockRows]
    · intro r hr
      obtain ⟨j, _, rfl⟩ := List.mem_map.mp hr
      exact ⟨rfl, rfl, rfl⟩
    · rw [blockRows_getD env course roomId day startIdx hk]
      rfl
    · rw [blockRows_getD env course roomId day startIdx (by omega : k - 1 < k)]
      show (if k - 1 = k - 1 then slotEndStr (env.timeSlots.getD (startIdx + (k - 1)) "")
        else slotStartStr (env.timeSlots.getD (startIdx + (k - 1) + 1) "")) = _
      rw [if_pos rfl]
    · intro j hj
      rw [blockRows_getD env course roomId day startIdx (by omega : j < k),
        blockRows_getD env course roomId day startIdx (by omega : j + 1 < k)]
      show (if j = k - 1 then _ else slotStartStr (env.timeSlots.getD (startIdx + j + 1) "")) = _
      rw [if_neg (by omega)]
      rfl
  · exact ⟨by decide, by decide, by decide, by decide, by decide, by decide⟩

/-- Witness for C6 at a concrete block (2 slots starting at index 0 of the
sample grid). -/
theorem c6_contiguous_block_witness :
    0 < 2 ∧ 0 + 2 ≤ (buildEnv sampleWeekDays sampleTimeSlots [] 7).timeSlots.length ∧
      (blockRows (buildEnv sampleWeekDays sampleTimeSlots [] 7) sampleCourse 1 "Monday" 0
        2).length = 2 :=
  ⟨by decide, by decide,
    ((c6_contiguous_block (buildEnv sampleWeekDays sampleTimeSlots [] 7) sampleCourse 1
      "Monday" 0 2 (by decide) (by decide)).1).2.1⟩

/-! ### Conflict symmetry -/

theorem mem_pushC (m : CMap) (k v a b : Option Int) :
    b ∈ pushC m k v a ↔ b ∈ m a ∨ (a = k ∧ b = v) := by
  unfold pushC
  by_cases h : a = k
  · simp [h]
  · simp [h]

theorem pushC2_mem (m : CMap) (k1 k2 a b : Option Int) :
    (b ∈ pushC (pushC m k1 k2) k2 k1 a) ↔
      b ∈ m a ∨ (a = k1 ∧ b = k2) ∨ (a = k2 ∧ b = k1) := by
  rw [mem_pushC, mem_pushC]
  tauto

theorem indexStep_symm {acc : AMap × AMap × CMap} (c : Constraint)
    (h : SymM acc.2.2) : SymM (indexStep acc c).2.2 := by
  unfold indexStep
  rcases c with ⟨t, e, d, ts⟩
  cases t
  · exact h
  · exact h
  · intro a b
    dsimp only
    rw [pushC2_mem, pushC2_mem, h a b]
    tauto

theorem foldl_indexStep_symm (cs : List Constraint) :
    ∀ (acc : AMap × AMap × CMap), SymM acc.2.2 → SymM ((cs.foldl indexStep acc)).2.2 := by
  induction cs with
  | nil => intro acc h; exact h
  | cons c rest ih =>
    intro acc h
    rw [List.foldl_cons]
    exact ih _ (indexStep_symm c h)

/-- C5: each `course_conflict` record inserts the edge in both directions, so
membership in the built conflict index is symmetric; and placement treats
conflicting courses as mutually exclusive: a slot occupied by a course listed
as conflicting is reported unavailable by the oracle. -/
theorem c5_conflict_symmetry :
    (∀ (cs : List Constraint) (a b : Option Int),
      b ∈ buildConflicts cs a ↔ a ∈ buildConflicts cs b) ∧
    (∀ (env : Env) (st : GenState) (course : Course) (slot : ClassSlot) (roomId : Int)
      (b : Int), some b ∈ env.courseConflicts (some course.id) →
      slot ∈ st.courseAssignments b →
      isSlotAvailable env st course slot roomId = false) := by
  constructor
  · intro cs a b
    exact foldl_indexStep_symm cs _ (fun _ _ => by simp) a b
  · intro env st course slot roomId b hmem hocc
    have hin : (jkGet st.courseAssignments (some b)).any (slotMatches slot) = true :=
      (any_slotMatches _ _).mpr hocc
    have hany : (env.courseConflicts (some course.id)).any
        (fun cid => (jkGet st.courseAssignments cid).any (slotMatches slot)) = true :=
      List.any_eq_true.mpr ⟨some b, hmem, hin⟩
    simp [isSlotAvailable, hany]

/-- Witness for C5: the record `(1, "2")` makes courses 1 and 2 mutually
exclusive in both directions, and course 1 is denied a slot occupied by
course 2. -/
theorem c5_conflict_symmetry_witness :
    (some (2 : Int) ∈ buildConflicts [pairConstraint] (some 1) ↔
      some (1 : Int) ∈ buildConflicts [pairConstraint] (some 2)) ∧
      isSlotAvailable
        (buildEnv smallWeekDays smallTimeSlots [pairConstraint] 7)
        { initState with
            courseAssignments := pushA initState.courseAssignments 2 ⟨"Monday", "09:00-10:00"⟩ }
        smallCourse ⟨"Monday", "09:00-10:00"⟩ 1 = false :=
  ⟨(c5_conflict_symmetry).1 [pairConstraint] (some 1) (some 2),
    (c5_conflict_symmetry).2
      (buildEnv smallWeekDays smallTimeSlots [pairConstraint] 7)
      { initState with
          courseAssignments := pushA initState.courseAssignments 2 ⟨"Monday", "09:00-10:00"⟩ }
      smallCourse ⟨"Monday", "09:00-10:00"⟩ 1 2 (by decide) (by decide)⟩

/-! ### The auditor's grouping -/

/-- C8 (amended): `checkConflicts` groups rows per instructor by the
concatenated key string `day-startTime-endTime` (not by the tuple itself);
for two rows with the same instructor, `instructorConflicts` is exactly one
group holding both rows when the key strings coincide — in particular for
two rows with identical `(day, startTime, endTime)` — and empty otherwise. -/
theorem c8_pair_grouping (r1 r2 : ScheduledClass) (h : r1.instructorId = r2.instructorId) :
    (checkConflicts [r1, r2]).instructorConflicts =
      if conflictKey r2 = conflictKey r1 then [⟨r1.instructorId, [r1, r2]⟩] else [] := by
  unfold checkConflicts
  dsimp only
  rw [List.foldl_cons, List.foldl_cons, List.foldl_nil]
  unfold instrStep
  dsimp only
  rw [← h]
  unfold pushG
  by_cases hk : conflictKey r2 = conflictKey r1
  · simp [hk]
  · simp [hk]

/-- Witness for C8 (amended): two rows with the same instructor and identical
`(day, startTime, endTime)` produce exactly one group of exactly those two
rows. -/
theorem c8_pair_grouping_witness :
    dupRowA.instructorId = dupRowB.instructorId ∧
      (checkConflicts [dupRowA, dupRowB]).instructorConflicts =
        [⟨dupRowA.instructorId, [dupRowA, dupRowB]⟩] :=
  ⟨by decide, by
    have h := c8_pair_grouping dupRowA dupRowB (by decide)
    rwa [if_pos (by decide)] at h⟩

/-- Counterexample to C8 as stated: the source groups by the string
`` `${day}-${startTime}-${endTime}` ``, not by exact tuple equality.  The
rows `dashRowA` and `dashRowB` have different `(day, startTime, endTime)`
tuples (their `day`s differ) yet share the key `"Mon-09-00-10:00"`, so the
auditor reports an instructor conflict where exact-tuple grouping would
report none. -/
theorem c8_exact_tuple_counterexample :
    dashRowA.day ≠ dashRowB.day ∧
      conflictKey dashRowA = conflictKey dashRowB ∧
      (checkConflicts [dashRowA, dashRowB]).instructorConflicts =
        [⟨1, [dashRowA, dashRowB]⟩] := by
  refine ⟨by decide, by decide, ?_⟩
  decide

/-! ### Read-only inputs: the in-place sorts only touch fresh arrays -/

theorem set_append_length (l : List α) (a b : α) : (l ++ [a]).set l.length b = l ++ [b] := by
  rw [List.set_append, if_neg (lt_irrefl _)]
  simp

theorem getD_append_length (l : List α) (a d : α) : (l ++ [a]).getD l.length d = a := by
  rw [List.getD_append_right _ _ _ _ (le_refl _)]
  simp

theorem foldl_heapStep (env : Env) (rr : Nat) :
    ∀ (courses : List Course) (heap : List (List Classroom)) (p : GenState × List Bool),
      rr < heap.length →
      (courses.foldl (heapStep env rr) (heap, p)).1.getD rr [] = heap.getD rr [] ∧
      rr < (courses.foldl (heapStep env rr) (heap, p)).1.length ∧
      (courses.foldl (heapStep env rr) (heap, p)).2 =
        courses.foldl (processCourse env (heap.getD rr [])) p := by
  intro courses
  induction courses with
  | nil => intro heap p hrr; exact ⟨rfl, hrr, rfl⟩
  | cons c rest ih =>
    intro heap p hrr
    rw [List.foldl_cons, List.foldl_cons]
    have hfil : ((heap ++ [(heap.getD rr []).filter
        (fun room => decide (c.capacity ≤ room.capacity))]).getD heap.length []) =
        (heap.getD rr []).filter (fun room => decide (c.capacity ≤ room.capacity)) :=
      getD_append_length _ _ _
    have hstep : heapStep env rr (heap, p) c =
        (heap ++ [sortJS roomBefore ((heap.getD rr []).filter
            (fun room => decide (c.capacity ≤ room.capacity)))],
          processCourse env (heap.getD rr []) p c) := by
      unfold heapStep
      dsimp only
      rw [hfil, set_append_length, getD_append_length]
      rfl
    rw [hstep]
    have hlen : rr < (heap ++ [sortJS roomBefore ((heap.getD rr []).filter
        (fun room => decide (c.capacity ≤ room.capacity)))]).length := by
      rw [List.length_append]
      omega
    obtain ⟨h1, h2, h3⟩ := ih _ (processCourse env (heap.getD rr []) p c) hlen
    have hget : (heap ++ [sortJS roomBefore ((heap.getD rr []).filter
        (fun room => decide (c.capacity ≤ room.capacity)))]).getD rr [] =
        heap.getD rr [] := List.getD_append _ _ _ rr hrr
    rw [hget] at h1 h3
    exact ⟨h1, h2, h3⟩

/-- C9: the generator treats its inputs as read-only.  With the two in-place
`sort` calls modelled against explicit stores (references are indices,
appending allocates, `List.set` writes in place), the caller's `courses`
array at `rc` and `classrooms` array at `rr` are unchanged after the call,
and the computed schedule coincides with the pure model's.  (`instructors`
and `constraints` are only ever read by the source — no sort, push or field
write touches them — so they are values in the model.) -/
theorem c9_inputs_read_only (weekDays timeSlots : List String)
    (courseHeap : List (List Course)) (rc : Nat) (roomHeap : List (List Classroom)) (rr : Nat)
    (instructors : List Instructor) (constraints : List Constraint) (tid : Int)
    (coins : List Bool) (hrc : rc < courseHeap.length) (hrr : rr < roomHeap.length) :
    (generateTimetableHeap weekDays timeSlots courseHeap rc roomHeap rr constraints tid
        coins).2.1.getD rc [] = courseHeap.getD rc [] ∧
    (generateTimetableHeap weekDays timeSlots courseHeap rc roomHeap rr constraints tid
        coins).2.2.getD rr [] = roomHeap.getD rr [] ∧
    (generateTimetableHeap weekDays timeSlots courseHeap rc roomHeap rr constraints tid
        coins).1 =
      generateTimetable weekDays timeSlots
        ⟨courseHeap.getD rc [], instructors, roomHeap.getD rr [], constraints, tid⟩ coins := by
  unfold generateTimetableHeap
  dsimp only
  have hgetc : ((courseHeap ++ [courseHeap.getD rc []]).getD courseHeap.length []) =
      courseHeap.getD rc [] := getD_append_length _ _ _
  rw [hgetc, set_append_length, getD_append_length]
  have hmain := foldl_heapStep (buildEnv weekDays timeSlots constraints tid) rr
    (sortJS (courseBefore (buildEnv weekDays timeSlots constraints tid))
      (courseHeap.getD rc []))
    roomHeap (initState, coins) hrr
  refine ⟨List.getD_append _ _ _ rc hrc, hmain.1, ?_⟩
  show (_ : GenState × List Bool).1.scheduledClasses = _
  rw [hmain.2.2]
  rfl

/-- Witness for C9 at concrete stores. -/
theorem c9_inputs_read_only_witness :
    0 < ([[sampleCourse]] : List (List Course)).length ∧
      0 < ([[sampleRoom]] : List (List Classroom)).length ∧
      (generateTimetableHeap sampleWeekDays sampleTimeSlots [[sampleCourse]] 0 [[sampleRoom]] 0
          [] 7 []).2.1.getD 0 [] = ([[sampleCourse]] : List (List Course)).getD 0 [] :=
  ⟨by decide, by decide,
    (c9_inputs_read_only sampleWeekDays sampleTimeSlots [[sampleCourse]] 0 [[sampleRoom]] 0
      [⟨1⟩] [] 7 [] (by decide) (by decide)).1⟩

/-! ### Behaviour at the inputs where the spec and the source diverge -/

/-- C2: at an input whose single course fits in no room, the source reports
under-scheduling only on the `console.warn` channel (modelled by the
`warnings` log) and returns the bare `scheduledClasses` array — here empty —
with no diagnostics value: `generateTimetable` yields `[]` while the warn log
holds the "No suitable rooms" message. -/
theorem c2_diagnostics_via_warn_log :
    generateTimetable sampleWeekDays sampleTimeSlots bigOptions [] = [] ∧
      (generateTimetableFull sampleWeekDays sampleTimeSlots bigOptions []).1.warnings =
        ["No suitable rooms for course CS101"] := by
  constructor
  · decide
  · decide

/-- C4: the source's schedule depends on the hidden `Math.random` outcomes;
two comparator-outcome streams (which no caller-supplied parameter can fix)
give different schedules on the same input. -/
theorem c4_output_depends_on_hidden_randomness :
    generateTimetable smallWeekDays smallTimeSlots smallOptions [] ≠
      generateTimetable smallWeekDays smallTimeSlots smallOptions [true] := by
  decide

/-- C7: with a malformed `course_conflict` secondary identifier
(`parseInt("abc")` is `NaN`), the source does not reject the input: it
records the `NaN`-keyed edges in the conflict index and proceeds to schedule
the course normally (one row is emitted). -/
theorem c7_malformed_conflict_not_rejected :
    buildConflicts [malformedConstraint] (some 1) = [none] ∧
      buildConflicts [malformedConstraint] none = [some 1] ∧
      (generateTimetable smallWeekDays smallTimeSlots malformedOptions []).length = 1 := by
  refine ⟨?_, ?_, ?_⟩
  · decide
  · decide
  · decide
